import Mathlib

/-!
Verification development for the rtsc compiler (a small imperative language
compiled to ARM32 assembly).  The definitions below are shallow embeddings of
the Rust sources: `src/types.rs`, the AST used by `src/phases/typecheck.rs`
and `src/phases/codegen.rs`, the parser combinators of
`src/parser/combinators.rs`, and the expression grammar of
`src/parser/expression.rs`.
-/

namespace Rtsc

/-- Association-list lookup used to model both `BTreeMap::get` and
`LinkedHashMap::get` (only `get`/`insert` are ever used by the program, so
the two maps are observationally identical to an association list whose
`insert` replaces in place). -/
def lookupA {α : Type} : List (String × α) → String → Option α
  | [], _ => none
  | (k, v) :: rest, key => if k = key then some v else lookupA rest key

/-- Association-list insert modelling `BTreeMap::insert` /
`LinkedHashMap::insert`: an existing key has its value replaced, a fresh key
is appended. -/
def insertA {α : Type} : List (String × α) → String → α → List (String × α)
  | [], key, v => [(key, v)]
  | (k, w) :: rest, key, v =>
    if k = key then (key, v) :: rest else (k, w) :: insertA rest key v

/-- `Type` from `src/types.rs`: a closed tagged union.  `Function` keeps its
`LinkedHashMap<String, Type>` of parameters as an ordered list of
name/type pairs. -/
inductive Ty where
  | boolean
  | number
  | void
  | undefined
  | array (element_type : Ty)
  | function (parameter_types : List (String × Ty)) (return_type : Ty)


mutual
/-- The custom `PartialEq for Type` from `src/types.rs`: structural equality,
except that `Function` ignores parameter names and compares the ordered
sequence of parameter types plus the return type. -/
def tyBeq : Ty → Ty → Bool
  | .boolean, .boolean => true
  | .number, .number => true
  | .undefined, .undefined => true
  | .void, .void => true
  | .array a, .array b => tyBeq a b
  | .function pa ra, .function pb rb => tyBeq ra rb && tyParamsBeq pa pb
  | _, _ => false

/-- `pa.values().eq(pb.values())` from the `Function` arm of `PartialEq for
Type`: same length and pairwise equal parameter types, names ignored. -/
def tyParamsBeq : List (String × Ty) → List (String × Ty) → Bool
  | [], [] => true
  | (_, a) :: as_, (_, b) :: bs => tyBeq a b && tyParamsBeq as_ bs
  | _, _ => false
end

/-- The `Ast` enum matched by `src/phases/typecheck.rs` and
`src/phases/codegen.rs`: `Function` carries the function's `Type`.
Constructor names follow the Rust variants except where Lean reserves the
word (`Return` → `ret`, `If` → `ifElse`, `While` → `whileLoop`, `Not` →
`not`). -/
inductive Ast where
  | null
  | undefined
  | number (value : Int)
  | bool (value : Bool)
  | arrayLiteral (elements : List Ast)
  | arrayLookup (array index : Ast)
  | arrayLength (array : Ast)
  | identifier (name : String)
  | not (expr : Ast)
  | equal (lhs rhs : Ast)
  | notEqual (lhs rhs : Ast)
  | addition (lhs rhs : Ast)
  | subtraction (lhs rhs : Ast)
  | multiplication (lhs rhs : Ast)
  | division (lhs rhs : Ast)
  | call (name : String) (args : List Ast)
  | ret (expr : Ast)
  | block (statements : List Ast)
  | ifElse (condition consequence alternative : Ast)
  | function (name : String) (ftype : Ty) (body : Ast)
  | var (name : String) (expr : Ast)
  | assignment (name : String) (expr : Ast)
  | whileLoop (condition body : Ast)


/-! ## Type checker (`src/phases/typecheck.rs`)

Every `panic!` / `unreachable!` of the checker is a fatal error; they are
modelled as `Except.error` values carrying the same structured data the
panic message formats. -/

/-- The fatal errors raised (as panics) by `StaticTypeChecker`. -/
inductive TErr where
  | typeMismatch (lhs rhs : Ty)
  | undefinedVariable (name : String)
  | emptyArray
  | expectedArray (actual : Ty)
  | undefinedFunction (name : String)
  | returnOutsideFunction
  | unreachableState

/-- The mutable fields of `StaticTypeChecker`: the locals map, the function
signature map and the optional expected return type. -/
structure TCtx where
  locals : List (String × Ty)
  functions : List (String × Ty)
  current_return_type : Option Ty

/-- `StaticTypeChecker::assert_type`: passes when either side is `Undefined`,
otherwise panics unless the two types are equal under the custom
`PartialEq for Type`. -/
def assertType (lhs rhs : Ty) : Except TErr Unit :=
  if tyBeq lhs Ty.undefined || tyBeq rhs Ty.undefined then
    Except.ok ()
  else if !(tyBeq lhs rhs) then
    Except.error (TErr.typeMismatch lhs rhs)
  else
    Except.ok ()

/-- The argument-against-parameter loop of the `Ast::Call` arm:
`for (arg, param) in arg_types.iter().zip(param_types)` — the zip stops at
the shorter of the two lists. -/
def assertArgs : List Ty → List Ty → Except TErr Unit
  | a :: as_, p :: ps => do
    assertType a p
    assertArgs as_ ps
  | _, _ => Except.ok ()

/-- The pairwise element check of the `Ast::ArrayLiteral` arm:
`types.iter().reduce(|lhs, rhs| { assert_type(lhs, rhs); &rhs })` — asserts
adjacent pairs and yields the last element type. -/
def reduceAssert : Ty → List Ty → Except TErr Ty
  | t, [] => Except.ok t
  | t, u :: rest => do
    assertType t u
    reduceAssert u rest

mutual
/-- `StaticTypeChecker::check`: a single-pass recursive checker returning the
node's type; the mutable checker state is threaded explicitly. -/
def check : Ast → TCtx → Except TErr (Ty × TCtx)
  | .number _, ctx => Except.ok (Ty.number, ctx)
  | .bool _, ctx => Except.ok (Ty.boolean, ctx)
  | .undefined, ctx => Except.ok (Ty.undefined, ctx)
  | .null, ctx => Except.ok (Ty.void, ctx)
  | .not e, ctx => do
    let (t, ctx') ← check e ctx
    assertType Ty.boolean t
    Except.ok (Ty.boolean, ctx')
  | .addition lhs rhs, ctx => do
    let (tl, ctx1) ← check lhs ctx
    assertType Ty.number tl
    let (tr, ctx2) ← check rhs ctx1
    assertType Ty.number tr
    Except.ok (Ty.number, ctx2)
  | .subtraction lhs rhs, ctx => do
    let (tl, ctx1) ← check lhs ctx
    assertType Ty.number tl
    let (tr, ctx2) ← check rhs ctx1
    assertType Ty.number tr
    Except.ok (Ty.number, ctx2)
  | .multiplication lhs rhs, ctx => do
    let (tl, ctx1) ← check lhs ctx
    assertType Ty.number tl
    let (tr, ctx2) ← check rhs ctx1
    assertType Ty.number tr
    Except.ok (Ty.number, ctx2)
  | .division lhs rhs, ctx => do
    let (tl, ctx1) ← check lhs ctx
    assertType Ty.number tl
    let (tr, ctx2) ← check rhs ctx1
    assertType Ty.number tr
    Except.ok (Ty.number, ctx2)
  | .equal lhs rhs, ctx => do
    let (tl, ctx1) ← check lhs ctx
    let (tr, ctx2) ← check rhs ctx1
    assertType tl tr
    Except.ok (Ty.boolean, ctx2)
  | .notEqual lhs rhs, ctx => do
    let (tl, ctx1) ← check lhs ctx
    let (tr, ctx2) ← check rhs ctx1
    assertType tl tr
    Except.ok (Ty.boolean, ctx2)
  | .var name e, ctx => do
    let (t, ctx') ← check e ctx
    Except.ok (Ty.void, { ctx' with locals := insertA ctx'.locals name t })
  | .identifier name, ctx =>
    match lookupA ctx.locals name with
    | some t => Except.ok (t, ctx)
    | none => Except.error (TErr.undefinedVariable name)
  | .assignment name e, ctx =>
    match lookupA ctx.locals name with
    | some t => do
      let (te, ctx') ← check e ctx
      assertType t te
      Except.ok (Ty.void, ctx')
    | none => Except.error (TErr.undefinedVariable name)
  | .arrayLiteral elements, ctx =>
    if elements.isEmpty then
      Except.error TErr.emptyArray
    else do
      let (types, ctx') ← checkList elements ctx
      match types with
      | [] => Except.error TErr.unreachableState
      | t :: rest => do
        let last ← reduceAssert t rest
        Except.ok (Ty.array last, ctx')
  | .arrayLength e, ctx => do
    let (t, ctx') ← check e ctx
    match t with
    | .array _ => Except.ok (Ty.number, ctx')
    | other => Except.error (TErr.expectedArray other)
  | .arrayLookup arr index, ctx => do
    let (ti, ctx1) ← check index ctx
    assertType Ty.number ti
    let (ta, ctx2) ← check arr ctx1
    match ta with
    | .array _ => Except.ok (Ty.number, ctx2)
    | other => Except.error (TErr.expectedArray other)
  | .function name ftype body, ctx =>
    let functions' := insertA ctx.functions name ftype
    match ftype with
    | .function parameters rt => do
      let child : TCtx := ⟨parameters, functions', some rt⟩
      let _ ← check body child
      Except.ok (Ty.void, { ctx with functions := functions' })
    | _ => Except.error TErr.unreachableState
  | .call name args, ctx =>
    match lookupA ctx.functions name with
    | none => Except.error (TErr.undefinedFunction name)
    | some sig =>
      match sig with
      | .function ps rt => do
        let (argTypes, ctx') ← checkList args ctx
        assertArgs argTypes (ps.map Prod.snd)
        Except.ok (rt, ctx')
      | _ => Except.error TErr.unreachableState
  | .ret e, ctx => do
    let (t, ctx') ← check e ctx
    match ctx'.current_return_type with
    | some rt => do
      assertType rt t
      Except.ok (Ty.void, ctx')
    | none => Except.error TErr.returnOutsideFunction
  | .ifElse condition consequence alternative, ctx => do
    let (_, ctx1) ← check condition ctx
    let (_, ctx2) ← check consequence ctx1
    let (_, ctx3) ← check alternative ctx2
    Except.ok (Ty.void, ctx3)
  | .whileLoop condition body, ctx => do
    let (_, ctx1) ← check condition ctx
    let (_, ctx2) ← check body ctx1
    Except.ok (Ty.void, ctx2)
  | .block statements, ctx => do
    let (_, ctx') ← checkList statements ctx
    Except.ok (Ty.void, ctx')

/-- `arguments.iter().map(|x| self.check(x)).collect()` and the statement
loop of `Block`: check a list of nodes left to right, threading the checker
state. -/
def checkList : List Ast → TCtx → Except TErr (List Ty × TCtx)
  | [], ctx => Except.ok ([], ctx)
  | a :: rest, ctx => do
    let (t, ctx1) ← check a ctx
    let (ts, ctx2) ← checkList rest ctx1
    Except.ok (t :: ts, ctx2)
end

/-! ## Code generator (`src/phases/codegen.rs`)

The output buffer is modelled as a list of emitted lines; each constructor of
`Instr` stands for exactly one string pushed by `Arm32Generator::emit_ast`
(`newline` for the bare `buffer.push('\n')` calls). -/

/-- One emitted assembly line of `Arm32Generator`.  Constructor names spell
out the operands appearing in the corresponding format string. -/
inductive Instr where
  | newline
  | pushFpLr
  | movFpSp
  | pushR0R1R2R3
  | movSpFp
  | movR0Imm (v : Int)
  | popFpPc
  | ldrR0Imm (v : Int)
  | blCall (name : String)
  | pushR4Ip
  | movR4R0
  | strR0AtR4
  | strR0AtR4Imm (off : Nat)
  | movR0R4
  | popR4Ip
  | pushR0Ip
  | popR1Ip
  | ldrR2AtR1
  | cmpR0R2
  | movhsR0Imm0
  | addloR1R1Imm4
  | lslloR0R0Imm2
  | ldrloR0AtR1R0
  | ldrR0AtR0Imm0
  | cmpR0Imm0
  | cmpR0R1
  | moveqR0Imm (v : Int)
  | movneR0Imm (v : Int)
  | addR0R0R1
  | subR0R1R0
  | mulR0R0R1
  | udivR0R0R1
  | subSpSpImm16
  | strR0AtSp (off : Nat)
  | popR0R1R2R3
  | strR0AtFp (off : Int)
  | ldrR0AtFp (off : Int)
  | globalDirective (name : String)
  | labelDef (name : String)
  | branch (label : String)
  | beq (label : String)

/-- `Environment` from `src/phases/codegen.rs`: the per-function symbol table
(`BTreeMap<String, isize>`) plus the next local offset. -/
structure Environment where
  locals : List (String × Int)
  next_local_offset : Int

/-- `make_label`: mints `.L<n>` from the process-wide counter; the counter is
threaded explicitly through `emitAst`. -/
def mkLabel (n : Nat) : String := ".L" ++ toString n

/-- The parameter collection of `make_initial_function_environment`:
`params.iter().enumerate().map(|(i, name)| (name, 4 * i as isize - 16))`
collected into a `BTreeMap` in iteration order. -/
def collectParams : List String → Nat → List (String × Int) → List (String × Int)
  | [], _, m => m
  | name :: rest, i, m => collectParams rest (i + 1) (insertA m name (4 * (i : Int) - 16))

/-- `Arm32Generator::make_initial_function_environment`: the i-th parameter
(0-based) is mapped to offset `4 * i - 16` and the next local offset starts
at `-20`. -/
def makeInitialFunctionEnvironment (params : List String) : Environment :=
  ⟨collectParams params 0 [], -20⟩

/-- `Arm32Generator::emit_prologue`. -/
def emitPrologue : List Instr :=
  [Instr.pushFpLr, Instr.movFpSp, Instr.pushR0R1R2R3]

/-- `Arm32Generator::emit_epilogue`. -/
def emitEpilogue : List Instr :=
  [Instr.movSpFp, Instr.movR0Imm 0, Instr.popFpPc]

mutual
/-- `Arm32Generator::emit_ast`.  The buffer is returned as the emitted line
list, the `&mut Environment` and the global label counter are threaded, and
every `panic!`/`unreachable!` of the generator is `none`. -/
def emitAst : Ast → Nat → Environment → Option (List Instr × Environment × Nat)
  | .block statements, lbl, env => do
    let (code, env', lbl') ← emitSeq statements lbl env
    some (Instr.newline :: code, env', lbl')
  | .undefined, lbl, env => some ([Instr.newline, Instr.movR0Imm 0], env, lbl)
  | .null, lbl, env => some ([Instr.newline, Instr.movR0Imm 0], env, lbl)
  | .number value, lbl, env => some ([Instr.newline, Instr.ldrR0Imm value], env, lbl)
  | .bool value, lbl, env =>
    if value then
      some ([Instr.newline, Instr.movR0Imm 1], env, lbl)
    else
      some ([Instr.newline, Instr.movR0Imm 0], env, lbl)
  | .arrayLiteral elements, lbl, env => do
    let length := elements.length
    let size := 4 * (length + 1)
    let (body, env', lbl') ← emitElems elements 0 lbl env
    some ([Instr.newline, Instr.ldrR0Imm (size : Int), Instr.blCall "malloc",
           Instr.pushR4Ip, Instr.movR4R0, Instr.ldrR0Imm (length : Int),
           Instr.strR0AtR4] ++ body ++ [Instr.movR0R4, Instr.popR4Ip],
          env', lbl')
  | .arrayLookup array index, lbl, env => do
    let (c1, env1, lbl1) ← emitAst array lbl env
    let (c2, env2, lbl2) ← emitAst index lbl1 env1
    some (c1 ++ [Instr.pushR0Ip] ++ c2 ++
          [Instr.popR1Ip, Instr.ldrR2AtR1, Instr.cmpR0R2, Instr.movhsR0Imm0,
           Instr.addloR1R1Imm4, Instr.lslloR0R0Imm2, Instr.ldrloR0AtR1R0],
          env2, lbl2)
  | .arrayLength array, lbl, env => do
    let (c, env', lbl') ← emitAst array lbl env
    some (c ++ [Instr.ldrR0AtR0Imm0], env', lbl')
  | .not expr, lbl, env => do
    let (c, env', lbl') ← emitAst expr lbl env
    some (Instr.newline :: c ++ [Instr.cmpR0Imm0, Instr.moveqR0Imm 1, Instr.movneR0Imm 0],
          env', lbl')
  | .addition lhs rhs, lbl, env => do
    let (c1, env1, lbl1) ← emitAst lhs lbl env
    let (c2, env2, lbl2) ← emitAst rhs lbl1 env1
    some (Instr.newline :: c1 ++ [Instr.pushR0Ip] ++ c2 ++
          [Instr.popR1Ip, Instr.addR0R0R1], env2, lbl2)
  | .subtraction lhs rhs, lbl, env => do
    let (c1, env1, lbl1) ← emitAst lhs lbl env
    let (c2, env2, lbl2) ← emitAst rhs lbl1 env1
    some (Instr.newline :: c1 ++ [Instr.pushR0Ip] ++ c2 ++
          [Instr.popR1Ip, Instr.subR0R1R0], env2, lbl2)
  | .multiplication lhs rhs, lbl, env => do
    let (c1, env1, lbl1) ← emitAst lhs lbl env
    let (c2, env2, lbl2) ← emitAst rhs lbl1 env1
    some (Instr.newline :: c1 ++ [Instr.pushR0Ip] ++ c2 ++
          [Instr.popR1Ip, Instr.mulR0R0R1], env2, lbl2)
  | .division lhs rhs, lbl, env => do
    let (c1, env1, lbl1) ← emitAst lhs lbl env
    let (c2, env2, lbl2) ← emitAst rhs lbl1 env1
    some (Instr.newline :: c1 ++ [Instr.pushR0Ip] ++ c2 ++
          [Instr.popR1Ip, Instr.udivR0R0R1], env2, lbl2)
  | .equal lhs rhs, lbl, env => do
    let (c1, env1, lbl1) ← emitAst lhs lbl env
    let (c2, env2, lbl2) ← emitAst rhs lbl1 env1
    some (Instr.newline :: c1 ++ [Instr.pushR0Ip] ++ c2 ++
          [Instr.popR1Ip, Instr.cmpR0R1, Instr.moveqR0Imm 1, Instr.movneR0Imm 0],
          env2, lbl2)
  | .notEqual lhs rhs, lbl, env => do
    let (c1, env1, lbl1) ← emitAst lhs lbl env
    let (c2, env2, lbl2) ← emitAst rhs lbl1 env1
    some (Instr.newline :: c1 ++ [Instr.pushR0Ip] ++ c2 ++
          [Instr.popR1Ip, Instr.cmpR0R1, Instr.moveqR0Imm 0, Instr.movneR0Imm 1],
          env2, lbl2)
  | .call name args, lbl, env =>
    match args with
    | [] => some ([Instr.newline, Instr.blCall name], env, lbl)
    | [arg] => do
      let (c, env', lbl') ← emitAst arg lbl env
      some (Instr.newline :: c ++ [Instr.blCall name], env', lbl')
    | a :: b :: rest =>
      if (a :: b :: rest).length < 5 then do
        let (body, env', lbl') ← emitArgs (a :: b :: rest) 0 lbl env
        some (Instr.newline :: Instr.subSpSpImm16 :: body ++
              [Instr.popR0R1R2R3, Instr.blCall name], env', lbl')
      else
        none
  | .var name expr, lbl, env => do
    let (c, env1, lbl1) ← emitAst expr lbl env
    some (Instr.newline :: c ++ [Instr.pushR0Ip],
          ⟨insertA env1.locals name (env1.next_local_offset - 4),
           env1.next_local_offset - 8⟩,
          lbl1)
  | .assignment name expr, lbl, env =>
    match lookupA env.locals name with
    | none => none
    | some off => do
      let (c, env', lbl') ← emitAst expr lbl env
      some (c ++ [Instr.strR0AtFp off], env', lbl')
  | .identifier name, lbl, env =>
    match lookupA env.locals name with
    | some off => some ([Instr.newline, Instr.ldrR0AtFp off], env, lbl)
    | none => none
  | .function name ftype body, lbl, env =>
    match ftype with
    | .function parameter_types _return_type =>
      if parameter_types.length > 4 then
        none
      else do
        let fenv := makeInitialFunctionEnvironment (parameter_types.map Prod.fst)
        let (c, _, lbl') ← emitAst body lbl fenv
        some ([Instr.newline, Instr.newline, Instr.globalDirective name,
               Instr.labelDef name] ++ emitPrologue ++ c ++ emitEpilogue,
              env, lbl')
    | _ => none
  | .ret expr, lbl, env => do
    let (c, env', lbl') ← emitAst expr lbl env
    some (c ++ [Instr.movSpFp, Instr.popFpPc], env', lbl')
  | .ifElse condition consequence alternative, lbl, env => do
    let false_label := mkLabel lbl
    let end_if_label := mkLabel (lbl + 1)
    let (c1, env1, lbl1) ← emitAst condition (lbl + 2) env
    let (c2, env2, lbl2) ← emitAst consequence lbl1 env1
    let (c3, env3, lbl3) ← emitAst alternative lbl2 env2
    some (Instr.newline :: c1 ++
          [Instr.cmpR0Imm0, Instr.beq false_label] ++ c2 ++
          [Instr.branch end_if_label, Instr.newline, Instr.labelDef false_label] ++
          c3 ++ [Instr.newline, Instr.labelDef end_if_label],
          env3, lbl3)
  | .whileLoop condition body, lbl, env => do
    let start_label := mkLabel lbl
    let end_label := mkLabel (lbl + 1)
    let (c1, env1, lbl1) ← emitAst condition (lbl + 2) env
    let (c2, env2, lbl2) ← emitAst body lbl1 env1
    some (Instr.newline :: Instr.labelDef start_label :: c1 ++
          [Instr.cmpR0Imm0, Instr.beq end_label] ++ c2 ++
          [Instr.branch start_label, Instr.labelDef end_label],
          env2, lbl2)
termination_by a _ _ => sizeOf a

/-- The statement loop of the `Ast::Block` arm: emit each statement in order,
concatenating the emitted lines. -/
def emitSeq : List Ast → Nat → Environment → Option (List Instr × Environment × Nat)
  | [], lbl, env => some ([], env, lbl)
  | a :: rest, lbl, env => do
    let (c, env1, lbl1) ← emitAst a lbl env
    let (cs, env2, lbl2) ← emitSeq rest lbl1 env1
    some (c ++ cs, env2, lbl2)
termination_by l _ _ => sizeOf l

/-- The element loop of the `Ast::ArrayLiteral` arm: emit each element and
store it at word `i + 1` of the array block. -/
def emitElems : List Ast → Nat → Nat → Environment → Option (List Instr × Environment × Nat)
  | [], _, lbl, env => some ([], env, lbl)
  | e :: rest, i, lbl, env => do
    let (c, env1, lbl1) ← emitAst e lbl env
    let (cs, env2, lbl2) ← emitElems rest (i + 1) lbl1 env1
    some (c ++ [Instr.strR0AtR4Imm (4 * (i + 1))] ++ cs, env2, lbl2)
termination_by l _ _ _ => sizeOf l

/-- The argument loop of the 2–4 argument `Ast::Call` arm: emit each argument
and store it to its stack scratch slot `[sp, #4*i]`. -/
def emitArgs : List Ast → Nat → Nat → Environment → Option (List Instr × Environment × Nat)
  | [], _, lbl, env => some ([], env, lbl)
  | a :: rest, i, lbl, env => do
    let (c, env1, lbl1) ← emitAst a lbl env
    let (cs, env2, lbl2) ← emitArgs rest (i + 1) lbl1 env1
    some (c ++ [Instr.strR0AtSp (4 * i)] ++ cs, env2, lbl2)
termination_by l _ _ _ => sizeOf l
end

/-! ## Machine semantics for the emitted straight-line code

A small operational semantics for the instruction subset the generator
emits in straight-line position.  Registers hold 32-bit words: every value
written to a register is reduced modulo `2^32` (two's complement view of
`i32` constants).  Addresses are kept as unbounded integers (the programs
never rely on address wraparound); memory maps word addresses to values.
Control flow (`b`, `beq`, labels, `bl`) is out of scope for this
straight-line semantics and makes execution return `none`. -/

/-- Word truncation: the value a 32-bit register actually holds. -/
def w (x : Int) : Int := x % 4294967296

/-- Read the word at address `a` (uninitialized memory reads 0). -/
def loadMem : List (Int × Int) → Int → Int
  | [], _ => 0
  | (k, v) :: rest, a => if k = a then v else loadMem rest a

/-- Write the word at address `a`. -/
def storeMem (m : List (Int × Int)) (a v : Int) : List (Int × Int) := (a, v) :: m

/-- Machine state: the registers the emitted code uses, the stack pointer,
memory, and the operand pair of the last `cmp` (ARM condition flags). -/
structure MState where
  r0 : Int
  r1 : Int
  r2 : Int
  r4 : Int
  fp : Int
  sp : Int
  mem : List (Int × Int)
  flags : Int × Int

/-- Unsigned comparison of two register words (`lo` condition after
`cmp a, b`). -/
def ult (a b : Int) : Bool := w a < w b

/-- Equality of two register words (`eq` condition after `cmp a, b`). -/
def weq (a b : Int) : Bool := w a = w b

/-- One step of the straight-line semantics.  `push {x, ip}` pushes `ip`
only to keep the stack 8-byte aligned; its value is never read, so the slot
is written as 0. -/
def step : Instr → MState → Option MState
  | .newline, st => some st
  | .movR0Imm v, st => some { st with r0 := w v }
  | .ldrR0Imm v, st => some { st with r0 := w v }
  | .pushR0Ip, st =>
    some { st with sp := st.sp - 8,
                   mem := storeMem (storeMem st.mem (st.sp - 8) st.r0) (st.sp - 4) 0 }
  | .popR1Ip, st => some { st with r1 := w (loadMem st.mem st.sp), sp := st.sp + 8 }
  | .pushR4Ip, st =>
    some { st with sp := st.sp - 8,
                   mem := storeMem (storeMem st.mem (st.sp - 8) st.r4) (st.sp - 4) 0 }
  | .popR4Ip, st => some { st with r4 := w (loadMem st.mem st.sp), sp := st.sp + 8 }
  | .movR4R0, st => some { st with r4 := st.r0 }
  | .movR0R4, st => some { st with r0 := st.r4 }
  | .strR0AtR4, st => some { st with mem := storeMem st.mem st.r4 st.r0 }
  | .strR0AtR4Imm off, st => some { st with mem := storeMem st.mem (st.r4 + (off : Int)) st.r0 }
  | .addR0R0R1, st => some { st with r0 := w (st.r0 + st.r1) }
  | .subR0R1R0, st => some { st with r0 := w (st.r1 - st.r0) }
  | .mulR0R0R1, st => some { st with r0 := w (st.r0 * st.r1) }
  | .udivR0R0R1, st => some { st with r0 := w st.r0 / w st.r1 }
  | .cmpR0R1, st => some { st with flags := (st.r0, st.r1) }
  | .cmpR0R2, st => some { st with flags := (st.r0, st.r2) }
  | .cmpR0Imm0, st => some { st with flags := (st.r0, 0) }
  | .moveqR0Imm v, st =>
    some (if weq st.flags.1 st.flags.2 then { st with r0 := w v } else st)
  | .movneR0Imm v, st =>
    some (if weq st.flags.1 st.flags.2 then st else { st with r0 := w v })
  | .movhsR0Imm0, st =>
    some (if ult st.flags.1 st.flags.2 then st else { st with r0 := 0 })
  | .addloR1R1Imm4, st =>
    some (if ult st.flags.1 st.flags.2 then { st with r1 := w (st.r1 + 4) } else st)
  | .lslloR0R0Imm2, st =>
    some (if ult st.flags.1 st.flags.2 then { st with r0 := w (st.r0 * 4) } else st)
  | .ldrloR0AtR1R0, st =>
    some (if ult st.flags.1 st.flags.2
          then { st with r0 := w (loadMem st.mem (st.r1 + st.r0)) }
          else st)
  | .ldrR2AtR1, st => some { st with r2 := w (loadMem st.mem st.r1) }
  | .ldrR0AtR0Imm0, st => some { st with r0 := w (loadMem st.mem st.r0) }
  | .subSpSpImm16, st => some { st with sp := st.sp - 16 }
  | .strR0AtSp off, st => some { st with mem := storeMem st.mem (st.sp + (off : Int)) st.r0 }
  | .strR0AtFp off, st => some { st with mem := storeMem st.mem (st.fp + off) st.r0 }
  | .ldrR0AtFp off, st => some { st with r0 := w (loadMem st.mem (st.fp + off)) }
  | _, _ => none

/-- Run a straight-line instruction sequence. -/
def exec : List Instr → MState → Option MState
  | [], st => some st
  | i :: rest, st => do
    let st' ← step i st
    exec rest st'


/-! ## Parser combinators (`src/parser/combinators.rs`)

A parser is a pure function from the remaining source text (`Source` holds
only its `remaining: String`, modelled as `List Char`) to `Option` of a
value and the residual text. -/

/-- The parsing-function type of `Parser<T>`. -/
def CParser (T : Type) : Type := List Char → Option (T × List Char)

/-- `Parser::constant`: always succeeds with `value`, consuming nothing. -/
def constantC {T : Type} (value : T) : CParser T :=
  fun source => some (value, source)

/-- The loop body of `Parser::zero_or_more`, made total with a fuel
parameter: `none` is fuel exhaustion (the Rust loop would still be
running), because the loop itself never returns a parse failure — on the
inner parser's failure it returns the results collected so far together
with the residual source. -/
def zeroOrMoreAux {T : Type} (parser : CParser T) :
    Nat → List T → List Char → Option (List T × List Char)
  | 0, _, _ => none
  | fuel + 1, results, source =>
    match parser source with
    | none => some (results, source)
    | some (v, s) => zeroOrMoreAux parser fuel (results ++ [v]) s

/-- `p` consumes input on every success. -/
def Consuming {T : Type} (p : CParser T) : Prop :=
  ∀ s v s', p s = some (v, s') → s'.length < s.length

/-- `Collects p s vs rest`: starting from `s`, repeated application of `p`
succeeds exactly `vs.length` times producing `vs` in order, and `p` fails
on the residual `rest`. -/
inductive Collects {T : Type} (p : CParser T) : List Char → List T → List Char → Prop
  | done {s : List Char} : p s = none → Collects p s [] s
  | step {s s' rest : List Char} {v : T} {vs : List T} :
      p s = some (v, s') → Collects p s' vs rest → Collects p s (v :: vs) rest

/-! ## Expression grammar (`src/parser/expression.rs`)

The grammar is written against the combinator free-function interface
(`cmb::regex`, `cmb::bind`, `cmb::or`, …).  Its parsers can panic: the
number parser declares its integer-conversion failure branch
`unreachable!()`.  A run therefore ends in success, parse failure, or
panic, with a panic propagating through every combinator (a Rust panic
unwinds past them). -/

/-- Outcome of running a grammar parser. -/
inductive PRes (T : Type) where
  | ok (value : T) (rest : List Char)
  | fail
  | panicked

/-- A grammar parser. -/
def PParser (T : Type) : Type := List Char → PRes T

/-- `OrValue` from `src/parser/combinators.rs`: the tagged value produced by
ordered choice. -/
inductive OrValue (T U : Type) where
  | lhs (value : T)
  | rhs (value : U)

/-- `cmb::constant`. -/
def pconstant {T : Type} (value : T) : PParser T :=
  fun source => PRes.ok value source

/-- `cmb::bind`: run `p`, feed its value to `callback`, run the resulting
parser on the residual source. -/
def pbind {T U : Type} (p : PParser T) (callback : T → PParser U) : PParser U :=
  fun source =>
    match p source with
    | .ok value new_source => callback value new_source
    | .fail => PRes.fail
    | .panicked => PRes.panicked

/-- `cmb::and`: sequence, discarding the first value. -/
def pand {T U : Type} (p : PParser T) (q : PParser U) : PParser U :=
  pbind p (fun _ => q)

/-- `cmb::map`. -/
def pmap {T U : Type} (p : PParser T) (callback : T → U) : PParser U :=
  fun source =>
    match p source with
    | .ok value new_source => PRes.ok (callback value) new_source
    | .fail => PRes.fail
    | .panicked => PRes.panicked

/-- `cmb::or`: ordered choice producing a tagged value; the second parser
runs on the original source. -/
def por {T U : Type} (p : PParser T) (q : PParser U) : PParser (OrValue T U) :=
  fun source =>
    match p source with
    | .ok value new_source => PRes.ok (OrValue.lhs value) new_source
    | .panicked => PRes.panicked
    | .fail =>
      match q source with
      | .ok value new_source => PRes.ok (OrValue.rhs value) new_source
      | .fail => PRes.fail
      | .panicked => PRes.panicked

/-- Modelled from the spec: `cmb::or_`, the same-type ordered choice used by
`src/parser/expression.rs` (its free-function combinator module is not under
`src/`; `src/parser/combinators.rs` only carries the tagged `or`).  Per §4.1
ordered choice: try `p`; on failure try `q` against the original cursor. -/
def porSame {T : Type} (p : PParser T) (q : PParser T) : PParser T :=
  fun source =>
    match p source with
    | .ok value new_source => PRes.ok value new_source
    | .panicked => PRes.panicked
    | .fail => q source

/-- `cmb::maybe`: `some` on success, `none` consuming nothing on failure. -/
def pmaybe {T : Type} (p : PParser T) : PParser (Option T) :=
  fun source =>
    match p source with
    | .ok value new_source => PRes.ok (some value) new_source
    | .fail => PRes.ok none source
    | .panicked => PRes.panicked

/-- The `zero_or_more` loop lifted to grammar parsers, fuelled. -/
def pzeroMoreAux {T : Type} (p : PParser T) :
    Nat → List T → PParser (List T)
  | 0, _, _ => PRes.fail
  | fuel + 1, results, source =>
    match p source with
    | .fail => PRes.ok results source
    | .panicked => PRes.panicked
    | .ok v s => pzeroMoreAux p fuel (results ++ [v]) s

/-- `cmb::zero_or_more` as used by the grammar: the loop runs until the
inner parser fails.  Every grammar use applies it to a parser that consumes
at least one character per success (operator tokens, whitespace, comments,
comma-prefixed arguments), so `length + 1` iterations are always enough and
the fuel branch is unreachable on those uses. -/
def pzeroOrMore {T : Type} (p : PParser T) : PParser (List T) :=
  fun source => pzeroMoreAux p (source.length + 1) [] source

/-! ### Token recognisers

Each `match*` function is the anchored-regex matcher `Source::match_regex`
specialised to one concrete pattern of `expression.rs`: the longest match at
the start of the input. -/

/-- A fixed-string pattern (e.g. `^function`, `^==`, `^\(`). -/
def matchString (lit : String) : List Char → Option (String × List Char) :=
  fun s => if lit.data.isPrefixOf s then some (lit, s.drop lit.length) else none

/-- `^[0-9]+`: the longest nonempty digit prefix. -/
def matchDigits : List Char → Option (String × List Char) :=
  fun s =>
    let ds := s.takeWhile (fun c => c.isDigit)
    if ds.isEmpty then none else some (String.mk ds, s.drop ds.length)

/-- A character allowed inside an identifier (`[a-zA-Z0-9_]`). -/
def isIdentChar (c : Char) : Bool := c.isAlpha || c.isDigit || c = '_'

/-- `^[a-zA-Z_][a-zA-Z0-9_]*`. -/
def matchIdent : List Char → Option (String × List Char) :=
  fun s =>
    match s with
    | [] => none
    | c :: _ =>
      if c.isAlpha || c = '_' then
        let ds := s.takeWhile isIdentChar
        some (String.mk ds, s.drop ds.length)
      else
        none

/-- A whitespace character of the class `[ \n\r\t]`. -/
def isWsChar (c : Char) : Bool := c = ' ' || c = '\n' || c = '\r' || c = '\t'

/-- `^[ \n\r\t]+`: the longest nonempty whitespace prefix. -/
def matchWhitespace : List Char → Option (String × List Char) :=
  fun s =>
    let ds := s.takeWhile isWsChar
    if ds.isEmpty then none else some (String.mk ds, s.drop ds.length)

/-- `^//.*`: a line comment (`.` does not match a newline). -/
def matchComment : List Char → Option (String × List Char) :=
  fun s =>
    match s with
    | '/' :: '/' :: rest =>
      let body := rest.takeWhile (fun c => c != '\n')
      some (String.mk ('/' :: '/' :: body), rest.drop body.length)
    | _ => none

/-- `cmb::regex` applied to a concrete matcher. -/
def pregex (m : List Char → Option (String × List Char)) : PParser String :=
  fun source =>
    match m source with
    | some (v, rest) => PRes.ok v rest
    | none => PRes.fail

/-- `make_ignored_parser`: zero or more whitespace runs or line comments. -/
def ignoredP : PParser (List (OrValue String String)) :=
  pzeroOrMore (por (pregex matchWhitespace) (pregex matchComment))

/-- `make_token_parser`: the pattern followed by ignored material, producing
the pattern's lexeme. -/
def tokenP (m : List Char → Option (String × List Char)) : PParser String :=
  pbind (pregex m) (fun value => pand ignoredP (pconstant value))

/-- The numeric value of a decimal digit string. -/
def numValue (text : String) : Nat :=
  text.data.foldl (fun acc c => 10 * acc + (c.toNat - '0'.toNat)) 0

/-- `text.parse::<i32>()` on a digit-only lexeme: the numeral's value when
it fits in a 32-bit signed integer, `none` (Rust `Err`) on overflow. -/
def parseI32 (text : String) : Option Int :=
  if numValue text ≤ 2147483647 then some ((numValue text : Nat) : Int) else none

/-- `make_number_parser`: a digit token mapped through `i32` conversion; the
conversion's `Err` branch is `unreachable!()`, i.e. a panic, not a parse
failure. -/
def numberP : PParser Ast :=
  fun source =>
    match tokenP matchDigits source with
    | .ok text rest =>
      match parseI32 text with
      | some value => PRes.ok (Ast.number value) rest
      | none => PRes.panicked
    | .fail => PRes.fail
    | .panicked => PRes.panicked

/-- `make_bool_parser`. -/
def boolP : PParser Ast :=
  pmap (por (tokenP (matchString "true")) (tokenP (matchString "false")))
    (fun true_or_false =>
      match true_or_false with
      | .lhs _ => Ast.bool true
      | .rhs _ => Ast.bool false)

/-- `make_undefined_parser_`. -/
def undefinedAstP : PParser Ast :=
  pand (tokenP (matchString "undefined")) (pconstant Ast.undefined)

/-- `make_null_parser_`. -/
def nullAstP : PParser Ast :=
  pand (tokenP (matchString "null")) (pconstant Ast.null)

/-- `make_identifier_parser`. -/
def identifierP : PParser Ast :=
  pmap (tokenP matchIdent) Ast.identifier

/-- `make_scalar_parser`: null / undefined / bool / identifier / number,
tried in that order. -/
def scalarP : PParser Ast :=
  porSame (porSame (porSame (porSame nullAstP undefinedAstP) boolP) identifierP) numberP

/-- `make_args_parser`: an optional first expression followed by zero or
more comma-prefixed expressions. -/
def argsP (expP : PParser Ast) : PParser (List Ast) :=
  pbind (pmaybe expP) (fun arg =>
    pbind (pzeroOrMore (pand (tokenP (matchString ",")) expP)) (fun args =>
      pconstant
        (match arg with
         | some first_arg => first_arg :: args
         | none => [])))

/-- `make_array_literal_parser`. -/
def arrayLiteralP (expP : PParser Ast) : PParser Ast :=
  pbind (pand (tokenP (matchString "[")) (argsP expP)) (fun elements =>
    pand (tokenP (matchString "]")) (pconstant (Ast.arrayLiteral elements)))

/-- `make_array_lookup_parser`. -/
def arrayLookupP (expP : PParser Ast) : PParser Ast :=
  pbind identifierP (fun id => 
    pbind (pand (tokenP (matchString "[")) expP) (fun index =>
      pand (tokenP (matchString "]")) (pconstant (Ast.arrayLookup id index))))

/-- `make_array_length_parser`. -/
def arrayLengthP (expP : PParser Ast) : PParser Ast :=
  pbind (pand (pand (tokenP (matchString "length")) (tokenP (matchString "("))) expP)
    (fun array =>
      pand (tokenP (matchString ")")) (pconstant (Ast.arrayLength array)))

/-- `make_call_parser`. -/
def callP (expP : PParser Ast) : PParser Ast :=
  pbind (tokenP matchIdent) (fun name =>
    pbind (pand (tokenP (matchString "(")) (argsP expP)) (fun args =>
      pand (tokenP (matchString ")")) (pconstant (Ast.call name args))))

/-- `make_atom_parser`: array-length / array-literal / array-lookup / call /
scalar / parenthesized expression, tried in that order. -/
def atomP (expP : PParser Ast) : PParser Ast :=
  porSame
    (porSame (porSame (porSame (porSame (arrayLengthP expP) (arrayLiteralP expP))
        (arrayLookupP expP))
      (callP expP))
      scalarP)
    (pand (tokenP (matchString "("))
      (pbind expP (fun e => pand (tokenP (matchString ")")) (pconstant e))))

/-- `make_unary_parser`: `NOT? atom`. -/
def unaryP (expP : PParser Ast) : PParser Ast :=
  pbind (pmaybe (tokenP (matchString "!"))) (fun nt =>
    pmap (atomP expP) (fun term =>
      if nt.isSome then Ast.not term else term))

/-- `make_product_parser`: `unary ((STAR / SLASH) unary)*`, left-folded in
encounter order. -/
def productP (expP : PParser Ast) : PParser Ast :=
  pbind (unaryP expP) (fun first =>
    pmap
      (pzeroOrMore (pbind (por (tokenP (matchString "*")) (tokenP (matchString "/")))
        (fun operator => pbind (unaryP expP) (fun term => pconstant (operator, term)))))
      (fun operator_terms =>
        operator_terms.foldl
          (fun acc ot =>
            match ot with
            | (.lhs _, term) => Ast.multiplication acc term
            | (.rhs _, term) => Ast.division acc term)
          first))

/-- `make_sum_parser`: `product ((PLUS / MINUS) product)*`, left-folded in
encounter order. -/
def sumP (expP : PParser Ast) : PParser Ast :=
  pbind (productP expP) (fun first =>
    pmap
      (pzeroOrMore (pbind (por (tokenP (matchString "+")) (tokenP (matchString "-")))
        (fun operator => pbind (productP expP) (fun term => pconstant (operator, term)))))
      (fun operator_terms =>
        operator_terms.foldl
          (fun acc ot =>
            match ot with
            | (.lhs _, term) => Ast.addition acc term
            | (.rhs _, term) => Ast.subtraction acc term)
          first))

/-- `make_comparison_parser`: `sum ((EQUAL / NOT_EQUAL) sum)*`, left-folded
in encounter order. -/
def comparisonP (expP : PParser Ast) : PParser Ast :=
  pbind (sumP expP) (fun first =>
    pmap
      (pzeroOrMore (pbind (por (tokenP (matchString "==")) (tokenP (matchString "!=")))
        (fun operator => pbind (sumP expP) (fun term => pconstant (operator, term)))))
      (fun operator_terms =>
        operator_terms.foldl
          (fun acc ot =>
            match ot with
            | (.lhs _, term) => Ast.equal acc term
            | (.rhs _, term) => Ast.notEqual acc term)
          first))

/-- `make_expression_parser`: the comparison level; the lazy self-reference
of the Rust grammar (`|input| make_comparison_parser().parse(input)`) is
made total with a nesting-depth fuel, decremented at each re-entry. -/
def expressionP : Nat → PParser Ast
  | 0 => fun _ => PRes.fail
  | fuel + 1 => comparisonP (expressionP fuel)

/-- A concrete strictly-consuming parser (recognises one `'a'`), used to
exercise the `zero_or_more` termination theorem. -/
def oneCharA : CParser Char :=
  fun s =>
    match s with
    | [] => none
    | c :: rest => if c = 'a' then some (c, rest) else none

/-! ## Lemmas about the association-list maps -/

theorem lookupA_insertA_self {α : Type} (m : List (String × α)) (k : String) (v : α) :
    lookupA (insertA m k v) k = some v := by
  induction m with
  | nil => simp [insertA, lookupA]
  | cons hd tl ih =>
    obtain ⟨k', v'⟩ := hd
    by_cases h : k' = k
    · subst h
      simp [insertA, lookupA]
    · simp [insertA, lookupA, h, ih]

theorem lookupA_insertA_ne {α : Type} (m : List (String × α)) (k key : String) (v : α)
    (h : k ≠ key) : lookupA (insertA m k v) key = lookupA m key := by
  induction m with
  | nil => simp [insertA, lookupA, h]
  | cons hd tl ih =>
    obtain ⟨k', v'⟩ := hd
    by_cases h' : k' = k
    · subst h'
      simp [insertA, lookupA, h]
    · simp [insertA, lookupA, h', ih]

theorem collectParams_not_mem (params : List String) (base : Nat)
    (m : List (String × Int)) (key : String) (h : key ∉ params) :
    lookupA (collectParams params base m) key = lookupA m key := by
  induction params generalizing base m with
  | nil => simp [collectParams]
  | cons p rest ih =>
    simp only [List.mem_cons, not_or] at h
    simp only [collectParams]
    rw [ih base.succ _ h.2, lookupA_insertA_ne _ _ _ _ (Ne.symm h.1)]

theorem collectParams_lookup (params : List String) (base : Nat)
    (m : List (String × Int)) (hnd : params.Nodup) (i : Nat) (h : i < params.length) :
    lookupA (collectParams params base m) params[i] =
      some (4 * ((base + i : Nat) : Int) - 16) := by
  induction params generalizing base m i with
  | nil => simp at h
  | cons p rest ih =>
    obtain ⟨hp, hrest⟩ := List.nodup_cons.mp hnd
    match i with
    | 0 =>
      simp only [List.getElem_cons_zero, collectParams]
      rw [collectParams_not_mem rest base.succ _ p hp, lookupA_insertA_self]
      simp
    | Nat.succ j =>
      simp only [List.getElem_cons_succ, collectParams]
      have hj : j < rest.length := by simpa using h
      rw [ih base.succ _ hrest j hj]
      congr 1
      push_cast
      ring

theorem except_bind_ok {ε α β : Type} (a : α) (f : α → Except ε β) :
    (Except.ok a >>= f : Except ε β) = f a := rfl

/-! ## Claim theorems -/

/-- C5: `assert_type` passes whenever either compared type is `Undefined`;
every type comparison the checker performs (equality operands, assignment,
call argument, return type, array-literal element pairs) is routed through
`assert_type`, so an `Undefined` on either side always passes. -/
theorem c5_assert_type_undefined_wildcard (lhs rhs : Ty)
    (h : lhs = Ty.undefined ∨ rhs = Ty.undefined) :
    assertType lhs rhs = Except.ok () := by
  rcases h with h | h
  · subst h
    simp [assertType, tyBeq]
  · subst h
    cases lhs <;> simp [assertType, tyBeq]

/-- Witness for C5 at concrete inputs: `Undefined` against `Boolean` and
`Number` against `Undefined` both pass. -/
theorem c5_assert_type_undefined_wildcard_witness :
    assertType Ty.undefined Ty.boolean = Except.ok () ∧
    assertType Ty.number Ty.undefined = Except.ok () :=
  ⟨c5_assert_type_undefined_wildcard Ty.undefined Ty.boolean (Or.inl rfl),
   c5_assert_type_undefined_wildcard Ty.number Ty.undefined (Or.inr rfl)⟩

/-- C10: when the digit token's numeral value exceeds `2147483647` the
number parser panics (the `i32` conversion error branch is
`unreachable!()`), not an ordinary parse failure; when the value fits the
parser succeeds with `Number` of that value. -/
theorem c10_number_parse_overflow (source : List Char) (text : String)
    (rest : List Char) (h : tokenP matchDigits source = PRes.ok text rest) :
    (2147483647 < numValue text → numberP source = PRes.panicked) ∧
    (numValue text ≤ 2147483647 →
      numberP source = PRes.ok (Ast.number (numValue text)) rest) := by
  constructor
  · intro hv
    simp [numberP, h, parseI32, Nat.not_le.mpr hv]
  · intro hv
    simp [numberP, h, parseI32, hv]

/-- Witness for C10: `"2147483648"` panics, `"2147483647"` succeeds. -/
theorem c10_number_parse_overflow_witness :
    numberP "2147483648".data = PRes.panicked ∧
    numberP "2147483647".data = PRes.ok (Ast.number 2147483647) [] :=
  ⟨(c10_number_parse_overflow "2147483648".data "2147483648" [] rfl).1 (by decide),
   (c10_number_parse_overflow "2147483647".data "2147483647" [] rfl).2 (by decide)⟩

/-- C8: each binary level left-folds its `(operator, term)` pairs in
encounter order: `"1 - 2 - 3"` parses to `Subtraction(Subtraction(1,2),3)`
and `"1 == 2 != 3"` parses to `NotEqual(Equal(1,2),3)`, each consuming the
whole input. -/
theorem c8_left_associativity :
    expressionP 2 "1 - 2 - 3".data =
      PRes.ok (Ast.subtraction (Ast.subtraction (Ast.number 1) (Ast.number 2))
        (Ast.number 3)) [] ∧
    expressionP 2 "1 == 2 != 3".data =
      PRes.ok (Ast.notEqual (Ast.equal (Ast.number 1) (Ast.number 2))
        (Ast.number 3)) [] :=
  ⟨rfl, rfl⟩

/-- C2 counterexample: the claim maps the 1st parameter to offset `-4`, but
`make_initial_function_environment` maps the i-th parameter (0-based) to
`4*i - 16`, so a single parameter lands at `-16`, not `-4`. -/
theorem c2_param_offset_counterexample :
    lookupA (makeInitialFunctionEnvironment ["a"]).locals "a" = some (-16) ∧
    lookupA (makeInitialFunctionEnvironment ["a"]).locals "a" ≠ some (-4) :=
  ⟨rfl, by decide⟩

/-- C2 amended: for a function with at most four (distinct) parameters, the
initial environment maps the i-th parameter (1-based) to `4*(i-1) - 16`,
i.e. `-16, -12, -8, -4` for the 1st through 4th parameter — the reverse
order of the claimed `-4, -8, -12, -16`. -/
theorem c2_param_offsets (params : List String) (i : Nat) (h : i < params.length)
    (hnd : params.Nodup) (hlen : params.length ≤ 4) :
    lookupA (makeInitialFunctionEnvironment params).locals params[i] =
      some (4 * (i : Int) - 16) := by
  have := collectParams_lookup params 0 [] hnd i h
  simpa [makeInitialFunctionEnvironment] using this

/-- Witness for C2 at `["a", "b"]`, index 1: the 2nd parameter is at
`-12`. -/
theorem c2_param_offsets_witness :
    lookupA (makeInitialFunctionEnvironment ["a", "b"]).locals "b" = some (-12) := by
  have h := c2_param_offsets ["a", "b"] 1 (by decide) (by decide) (by decide)
  simpa using h

/-- C3 counterexample: the claim records the first `Var` of a function body
at offset `-20`, but with the initial `next_local_offset = -20` the `Var`
arm records `next_local_offset - 4 = -24`. -/
theorem c3_var_offset_counterexample :
    emitAst (Ast.var "x" (Ast.number 1)) 0 (makeInitialFunctionEnvironment []) =
      some ([Instr.newline, Instr.newline, Instr.ldrR0Imm 1, Instr.pushR0Ip],
            ⟨[("x", -24)], -28⟩, 0) ∧
    ((-24 : Int) ≠ -20) :=
  ⟨by simp [emitAst, makeInitialFunctionEnvironment, collectParams, insertA], by decide⟩

/-- C3 amended: the k-th `Var` encountered during the linear walk (i.e. with
`next_local_offset = -20 - 8*k` after its initializer) records its local at
offset `-(24 + 8*k)` — `-24, -32, -40, ...`, not `-20, -28, -36, ...` — and
moves `next_local_offset` 8 bytes further down; the recorded offset is the
one at which `push {r0, ip}` actually stores the value, given the stack
pointer sits at `fp - (16 + 8*k)` (prologue plus one earlier push per prior
`Var`). -/
theorem c3_var_offsets (name : String) (e : Ast) (lbl : Nat) (env : Environment)
    (code : List Instr) (env1 : Environment) (lbl1 : Nat) (k : Nat)
    (he : emitAst e lbl env = some (code, env1, lbl1))
    (hnext : env1.next_local_offset = -20 - 8 * k) :
    (∃ env2, emitAst (Ast.var name e) lbl env =
        some (Instr.newline :: code ++ [Instr.pushR0Ip], env2, lbl1) ∧
      lookupA env2.locals name = some (-(24 + 8 * (k : Int))) ∧
      env2.next_local_offset = -(28 + 8 * (k : Int))) ∧
    (∀ st : MState, st.sp = st.fp - (16 + 8 * k) →
      ∃ st', exec [Instr.pushR0Ip] st = some st' ∧
        loadMem st'.mem (st.fp + (-(24 + 8 * (k : Int)))) = st.r0) := by
  constructor
  · refine ⟨⟨insertA env1.locals name (env1.next_local_offset - 4),
             env1.next_local_offset - 8⟩, ?_, ?_, ?_⟩
    · simp [emitAst, he]
    · rw [lookupA_insertA_self, hnext]
      congr 1
      ring
    · rw [hnext]
      ring
  · intro st hsp
    refine ⟨_, rfl, ?_⟩
    simp only [step, exec, Option.bind, storeMem, loadMem, hsp]
    rw [if_neg (by omega), if_pos (by omega)]

/-- Witness for C3 at the first `Var` of a fresh function environment. -/
theorem c3_var_offsets_witness :
    ∃ env2, emitAst (Ast.var "y" (Ast.number 7)) 0 ⟨[], -20⟩ =
        some (Instr.newline :: [Instr.newline, Instr.ldrR0Imm 7] ++ [Instr.pushR0Ip],
              env2, 0) ∧
      lookupA env2.locals "y" = some (-(24 + 8 * ((0 : Nat) : Int))) ∧
      env2.next_local_offset = -(28 + 8 * ((0 : Nat) : Int)) :=
  (c3_var_offsets "y" (Ast.number 7) 0 ⟨[], -20⟩ [Instr.newline, Instr.ldrR0Imm 7]
    ⟨[], -20⟩ 0 0 (by simp [emitAst]) (by norm_num)).1

/-- C9 counterexample: a `Call` with a single argument can still fail
fatally (its argument is an undefined identifier), so it is not true that
every call with zero through four arguments is marshalled without error. -/
theorem c9_call_arity_counterexample :
    emitAst (Ast.call "f" [Ast.identifier "x"]) 0 ⟨[], 0⟩ = none ∧ (1 : Nat) ≤ 4 :=
  ⟨by simp [emitAst, lookupA], by decide⟩

/-- C9 amended: the generator fails fatally for every `Call` with more than
four arguments and for every `Function` whose type declares more than four
parameters; and every `Call` with zero through four arguments whose argument
expressions themselves emit without fatal error is marshalled without error
(the arity dispatch adds no failure of its own). -/
theorem c9_call_arity :
    (∀ name args lbl env, 4 < args.length →
      emitAst (Ast.call name args) lbl env = none) ∧
    (∀ name ps rt body lbl env, 4 < ps.length →
      emitAst (Ast.function name (Ty.function ps rt) body) lbl env = none) ∧
    (∀ name args lbl env code env' lbl',
      emitSeq args lbl env = some (code, env', lbl') → args.length ≤ 4 →
      ∃ code2, emitAst (Ast.call name args) lbl env = some (code2, env', lbl')) := by
  refine ⟨?_, ?_, ?_⟩
  · intro name args lbl env h
    match args with
    | [] => simp at h
    | [a] => simp at h
    | a :: b :: rest =>
      simp only [emitAst]
      rw [if_neg]
      simp only [List.length_cons] at h ⊢
      omega
  · intro name ps rt body lbl env h
    simp only [emitAst]
    rw [if_pos h]
  · intro name args lbl env code env' lbl' hseq hlen
    match args with
    | [] =>
      simp only [emitSeq, Option.some_inj, Prod.mk.injEq] at hseq
      obtain ⟨-, rfl, rfl⟩ := hseq
      exact ⟨[Instr.newline, Instr.blCall name], by simp [emitAst]⟩
    | [a] =>
      simp only [emitSeq, Option.bind_eq_bind] at hseq
      cases ha : emitAst a lbl env with
      | none => rw [ha] at hseq; simp at hseq
      | some r =>
        obtain ⟨c, e1, l1⟩ := r
        rw [ha] at hseq
        simp only [Option.some_bind, emitSeq, Option.some_bind, Option.some_inj,
          Prod.mk.injEq] at hseq
        obtain ⟨-, rfl, rfl⟩ := hseq
        refine ⟨Instr.newline :: c ++ [Instr.blCall name], ?_⟩
        simp [emitAst, ha]
    | a :: b :: rest =>
      have hargs : ∀ i, ∃ code2,
          emitArgs (a :: b :: rest) i lbl env = some (code2, env', lbl') := by
        clear hlen
        -- generalizing over the list, start index, and starting state
        suffices hgen : ∀ (l : List Ast) (i lblg : Nat) (envg : Environment)
            (codeg : List Instr) (envg' : Environment) (lblg' : Nat),
            emitSeq l lblg envg = some (codeg, envg', lblg') →
            ∃ code2, emitArgs l i lblg envg = some (code2, envg', lblg') by
          intro i
          exact hgen (a :: b :: rest) i lbl env code env' lbl' hseq
        intro l
        induction l with
        | nil =>
          intro i lblg envg codeg envg' lblg' hs
          simp only [emitSeq, Option.some_inj, Prod.mk.injEq] at hs
          obtain ⟨-, rfl, rfl⟩ := hs
          exact ⟨[], by simp [emitArgs]⟩
        | cons x xs ih =>
          intro i lblg envg codeg envg' lblg' hs
          simp only [emitSeq, Option.bind_eq_bind] at hs
          cases hx : emitAst x lblg envg with
          | none => rw [hx] at hs; simp at hs
          | some r =>
            obtain ⟨c, e1, l1⟩ := r
            rw [hx] at hs
            simp only [Option.some_bind] at hs
            cases hxs : emitSeq xs l1 e1 with
            | none => rw [hxs] at hs; simp at hs
            | some r2 =>
              obtain ⟨cs, e2, l2⟩ := r2
              rw [hxs] at hs
              simp only [Option.some_bind, Option.some_inj, Prod.mk.injEq] at hs
              obtain ⟨-, rfl, rfl⟩ := hs
              obtain ⟨code2, h2⟩ := ih (i + 1) l1 e1 cs e2 l2 hxs
              refine ⟨c ++ [Instr.strR0AtSp (4 * i)] ++ code2, ?_⟩
              simp [emitArgs, hx, h2]
      obtain ⟨code2, h2⟩ := hargs 0
      refine ⟨Instr.newline :: Instr.subSpSpImm16 :: code2 ++
              [Instr.popR0R1R2R3, Instr.blCall name], ?_⟩
      simp only [emitAst]
      rw [if_pos]
      · simp [h2]
      · simp only [List.length_cons] at hlen ⊢
        omega

/-- Witness for C9: a four-argument call of literals is marshalled without
error. -/
theorem c9_call_arity_witness :
    ∃ code2, emitAst (Ast.call "g"
        [Ast.number 1, Ast.number 2, Ast.number 3, Ast.number 4]) 0 ⟨[], 0⟩ =
      some (code2, ⟨[], 0⟩, 0) :=
  c9_call_arity.2.2 "g" [Ast.number 1, Ast.number 2, Ast.number 3, Ast.number 4]
    0 ⟨[], 0⟩
    [Instr.newline, Instr.ldrR0Imm 1, Instr.newline, Instr.ldrR0Imm 2,
     Instr.newline, Instr.ldrR0Imm 3, Instr.newline, Instr.ldrR0Imm 4]
    ⟨[], 0⟩ 0 (by simp [emitSeq, emitAst]) (by decide)

/-- C1: evaluated at `Division(Number 6, Number 2)`, the emitted sequence
saves the left operand, computes the right operand into `r0`, restores the
left into `r1`, then emits `udiv r0, r0, r1` — right divided by left — so
the run produces `2 / 6 = 0` where the claim requires `6 / 2 = 3`.  The
subtraction arm does combine left-minus-right (`sub r0, r1, r0`),
producing `6 - 2 = 4`. -/
theorem c1_division_operand_order :
    (((emitAst (Ast.subtraction (Ast.number 6) (Ast.number 2)) 0 ⟨[], 0⟩).bind
        (fun r => exec r.1 ⟨0, 0, 0, 0, 0, 0, [], (0, 0)⟩)).map MState.r0 = some 4) ∧
    (((emitAst (Ast.division (Ast.number 6) (Ast.number 2)) 0 ⟨[], 0⟩).bind
        (fun r => exec r.1 ⟨0, 0, 0, 0, 0, 0, [], (0, 0)⟩)).map MState.r0 = some 0) ∧
    ((6 : Int) - 2 = 4) ∧ ((6 : Int) / 2 = 3) ∧ ((0 : Int) ≠ 3) := by
  have hsub : emitAst (Ast.subtraction (Ast.number 6) (Ast.number 2)) 0 ⟨[], 0⟩ =
      some ([Instr.newline, Instr.newline, Instr.ldrR0Imm 6, Instr.pushR0Ip,
             Instr.newline, Instr.ldrR0Imm 2, Instr.popR1Ip, Instr.subR0R1R0],
            ⟨[], 0⟩, 0) := by
    simp [emitAst]
  have hdiv : emitAst (Ast.division (Ast.number 6) (Ast.number 2)) 0 ⟨[], 0⟩ =
      some ([Instr.newline, Instr.newline, Instr.ldrR0Imm 6, Instr.pushR0Ip,
             Instr.newline, Instr.ldrR0Imm 2, Instr.popR1Ip, Instr.udivR0R0R1],
            ⟨[], 0⟩, 0) := by
    simp [emitAst]
  rw [hsub, hdiv]
  exact ⟨rfl, rfl, rfl, rfl, by decide⟩

/-- C4: the `Call` rule fails fatally when the callee is unknown; when the
callee's signature is known and every argument checks, the argument types
are asserted against the parameter types positionally for only as many
pairs as the shorter list (`assertArgs` stops at the shorter list, so extra
arguments are accepted), and the call yields the declared return type. -/
theorem c4_call_typecheck :
    (∀ name args ctx, lookupA ctx.functions name = none →
      check (Ast.call name args) ctx = Except.error (TErr.undefinedFunction name)) ∧
    (∀ name args ctx ps rt ts ctx',
      lookupA ctx.functions name = some (Ty.function ps rt) →
      checkList args ctx = Except.ok (ts, ctx') →
      assertArgs ts (ps.map Prod.snd) = Except.ok () →
      check (Ast.call name args) ctx = Except.ok (rt, ctx')) := by
  constructor
  · intro name args ctx h
    simp [check, h]
  · intro name args ctx ps rt ts ctx' hf hargs hassert
    simp [check, hf, hargs, hassert, except_bind_ok]

/-- Witness for C4: a call with two arguments against a one-parameter
signature is accepted (only the first pair is compared) and yields the
declared return type. -/
theorem c4_call_typecheck_witness :
    check (Ast.call "f" [Ast.number 1, Ast.bool true])
        ⟨[], [("f", Ty.function [("x", Ty.number)] Ty.number)], none⟩ =
      Except.ok (Ty.number,
        ⟨[], [("f", Ty.function [("x", Ty.number)] Ty.number)], none⟩) :=
  c4_call_typecheck.2 "f" [Ast.number 1, Ast.bool true]
    ⟨[], [("f", Ty.function [("x", Ty.number)] Ty.number)], none⟩
    [("x", Ty.number)] Ty.number [Ty.number, Ty.boolean]
    ⟨[], [("f", Ty.function [("x", Ty.number)] Ty.number)], none⟩
    (by simp [lookupA])
    (by simp [checkList, check, except_bind_ok])
    (by simp [assertArgs, assertType, tyBeq, except_bind_ok])

/-- The `zero_or_more` loop returns the collected successes once the inner
parser fails, provided the inner parser consumes input on success (then the
input length bounds the number of iterations). -/
theorem zeroOrMoreAux_consuming {T : Type} (p : CParser T) (hp : Consuming p) :
    ∀ (fuel : Nat) (s : List Char) (acc : List T), s.length < fuel →
      ∃ vs rest, zeroOrMoreAux p fuel acc s = some (acc ++ vs, rest) ∧
        Collects p s vs rest := by
  intro fuel
  induction fuel with
  | zero => intro s acc h; omega
  | succ n ih =>
    intro s acc h
    cases hps : p s with
    | none =>
      exact ⟨[], s, by simp [zeroOrMoreAux, hps], Collects.done hps⟩
    | some vr =>
      obtain ⟨v, s'⟩ := vr
      have hlt : s'.length < s.length := hp s v s' hps
      obtain ⟨vs, rest, heq, hc⟩ := ih s' (acc ++ [v]) (by omega)
      refine ⟨v :: vs, rest, ?_, Collects.step hps hc⟩
      have hred : zeroOrMoreAux p (n + 1) acc s = zeroOrMoreAux p n (acc ++ [v]) s' := by
        show (match p s with
              | none => some (acc, s)
              | some (v, s) => zeroOrMoreAux p n (acc ++ [v]) s) =
            zeroOrMoreAux p n (acc ++ [v]) s'
        rw [hps]
      rw [hred, heq]
      simp

/-- C6 counterexample: for `p = constant(1)` (which succeeds without
consuming), `zero_or_more(p)` never returns at all — no amount of fuel makes
the loop reach its exit — so it is not true that it returns a success for
every parser and input. -/
theorem c6_zero_or_more_counterexample :
    ¬ ∃ (fuel : Nat) (result : List Nat × List Char),
        zeroOrMoreAux (constantC 1) fuel [] "abc".data = some result := by
  have key : ∀ (fuel : Nat) (acc : List Nat) (s : List Char),
      zeroOrMoreAux (constantC 1) fuel acc s = none := by
    intro fuel
    induction fuel with
    | zero => intro acc s; rfl
    | succ n ih => intro acc s; exact ih (acc ++ [1]) s
  rintro ⟨fuel, result, h⟩
  rw [key] at h
  exact Option.noConfusion h

/-- C6 amended: `zero_or_more(p)` never returns a parse failure; whenever
the inner parser consumes input on every success (so that it eventually
fails), the loop returns a success collecting the produced values in order
together with the residual input after the last success.  For a parser that
succeeds without consuming (e.g. `constant`) the loop never returns. -/
theorem c6_zero_or_more_succeeds {T : Type} (p : CParser T) (hp : Consuming p)
    (s : List Char) :
    ∃ vs rest, zeroOrMoreAux p (s.length + 1) [] s = some (vs, rest) ∧
      Collects p s vs rest := by
  obtain ⟨vs, rest, heq, hc⟩ :=
    zeroOrMoreAux_consuming p hp (s.length + 1) s [] (by omega)
  exact ⟨vs, rest, by simpa using heq, hc⟩

/-- The single-`'a'` recogniser consumes one character on every success. -/
theorem oneCharA_consuming : Consuming oneCharA := by
  intro s v s' h
  match s with
  | [] => simp [oneCharA] at h
  | c :: rest =>
    simp only [oneCharA] at h
    by_cases hc : c = 'a'
    · rw [if_pos hc] at h
      simp only [Option.some_inj, Prod.mk.injEq] at h
      obtain ⟨-, rfl⟩ := h
      simp
    · rw [if_neg hc] at h
      exact Option.noConfusion h

/-- Witness for C6 on `"aab"` with the consuming parser `oneCharA`. -/
theorem c6_zero_or_more_succeeds_witness :
    ∃ vs rest,
      zeroOrMoreAux oneCharA ("aab".data.length + 1) [] "aab".data =
        some (vs, rest) ∧
      Collects oneCharA "aab".data vs rest :=
  c6_zero_or_more_succeeds oneCharA oneCharA_consuming "aab".data

/-- C7: the `ArrayLookup` arm emits the array expression, saves its value,
emits the index expression, restores the array base, and appends the fixed
compare-and-load suffix; running that suffix from a state whose `r0` holds
the index, whose saved stack word holds the array base, and whose first
array word holds the length, yields 0 in `r0` when the length (unsigned) is
not above the index — no trap, no fatal error — and otherwise loads the
element at `base + 4 + 4*index`. -/
theorem c7_array_lookup_sentinel (array index : Ast) (lbl : Nat) (env : Environment) :
    (emitAst (Ast.arrayLookup array index) lbl env =
      (emitAst array lbl env).bind (fun r1 =>
        (emitAst index r1.2.2 r1.2.1).bind (fun r2 =>
          some (r1.1 ++ [Instr.pushR0Ip] ++ r2.1 ++
                [Instr.popR1Ip, Instr.ldrR2AtR1, Instr.cmpR0R2, Instr.movhsR0Imm0,
                 Instr.addloR1R1Imm4, Instr.lslloR0R0Imm2, Instr.ldrloR0AtR1R0],
                r2.2.1, r2.2.2)))) ∧
    (∀ (st : MState) (idx len base elem : Int),
      st.r0 = idx →
      loadMem st.mem st.sp = base →
      loadMem st.mem base = len →
      loadMem st.mem (base + 4 + 4 * idx) = elem →
      0 ≤ idx → 0 ≤ len → len < 4294967296 → 0 ≤ base →
      base + 4 + 4 * idx < 4294967296 → 0 ≤ elem → elem < 4294967296 →
      ∃ st', exec [Instr.popR1Ip, Instr.ldrR2AtR1, Instr.cmpR0R2, Instr.movhsR0Imm0,
                   Instr.addloR1R1Imm4, Instr.lslloR0R0Imm2, Instr.ldrloR0AtR1R0] st =
          some st' ∧
        (len ≤ idx → st'.r0 = 0) ∧ (idx < len → st'.r0 = elem)) := by
  constructor
  · cases h1 : emitAst array lbl env with
    | none => simp [emitAst, h1]
    | some r1 =>
      obtain ⟨c1, env1, lbl1⟩ := r1
      cases h2 : emitAst index lbl1 env1 with
      | none => simp [emitAst, h1, h2]
      | some r2 =>
        obtain ⟨c2, env2, lbl2⟩ := r2
        simp [emitAst, h1, h2]
  · intro st idx len base elem h0 hsp hlen helem hidx0 hlen0 hlenlt hbase0 haddr
      helem0 helemlt
    obtain ⟨r0v, r1v, r2v, r4v, fpv, spv, memv, flagsv⟩ := st
    simp only at h0 hsp hlen helem
    have hidxlt : idx < 4294967296 := by omega
    have hbaselt : base < 4294967296 := by omega
    have hwb : w base = base := Int.emod_eq_of_lt hbase0 hbaselt
    have hwl : w len = len := Int.emod_eq_of_lt hlen0 hlenlt
    have hwi : w idx = idx := Int.emod_eq_of_lt hidx0 hidxlt
    simp only [exec, step, Option.bind_eq_bind, Option.some_bind, h0, hsp, hwb, hlen,
      hwl, Option.some_inj]
    by_cases hc : idx < len
    · have hult : ult idx len = true := by
        simp only [ult, hwi, hwl]
        exact decide_eq_true hc
      refine ⟨_, rfl, fun hle => absurd hc (by omega), fun _ => ?_⟩
      have h4 : w (base + 4) = base + 4 := Int.emod_eq_of_lt (by omega) (by omega)
      have hmul : w (idx * 4) = idx * 4 := Int.emod_eq_of_lt (by omega) (by omega)
      simp [hult, h4, hmul]
      rw [show base + 4 + idx * 4 = base + 4 + 4 * idx from by ring, helem]
      exact Int.emod_eq_of_lt helem0 helemlt
    · have hult : ult idx len = false := by
        simp only [ult, hwi, hwl]
        exact decide_eq_false hc
      refine ⟨_, rfl, fun _ => ?_, fun hlt => absurd hlt hc⟩
      simp [hult]

/-- Witness for C7: a 3-element array at base 100, index 1, element 8 at
address 108 — the in-range branch loads 8. -/
theorem c7_array_lookup_sentinel_witness :
    ∃ st', exec [Instr.popR1Ip, Instr.ldrR2AtR1, Instr.cmpR0R2, Instr.movhsR0Imm0,
                 Instr.addloR1R1Imm4, Instr.lslloR0R0Imm2, Instr.ldrloR0AtR1R0]
        ⟨1, 0, 0, 0, 0, 50, [(50, 100), (100, 3), (104, 7), (108, 8), (112, 9)],
         (0, 0)⟩ = some st' ∧
      ((3 : Int) ≤ 1 → st'.r0 = 0) ∧ ((1 : Int) < 3 → st'.r0 = 8) :=
  (c7_array_lookup_sentinel Ast.null Ast.null 0 ⟨[], 0⟩).2
    ⟨1, 0, 0, 0, 0, 50, [(50, 100), (100, 3), (104, 7), (108, 8), (112, 9)], (0, 0)⟩
    1 3 100 8 rfl (by simp [loadMem]) (by simp [loadMem]) (by simp [loadMem])
    (by decide) (by decide) (by decide) (by decide) (by decide) (by decide) (by decide)

end Rtsc
